import Mathlib

/-!
Shallow embedding of the unused-binding allow-list decision engine of the
`no_unused_vars` lint rule (crates/oxc_linter/src/rules/eslint/no_unused_vars/allowed.rs)
and of the file-discovery entry filter (apps/oxlint/src/walk.rs), together with
theorems settling the specification claims about them.

The syntax tree, scope tree and symbol table are external collaborators of the
engine; they are modelled here as the read-only query surface the engine
consumes: a symbol carries its declaration kind, the chain of ancestor node
kinds from its declaration to the tree root, the introducing node kinds of its
enclosing scopes, its root-scope flag and its reference count.
-/

namespace Oxc

/-! ## AST data model (query surface consumed by the engine) -/

inductive FunctionType where
  | FunctionDeclaration
  | FunctionExpression
  | TSDeclareFunction
  | TSEmptyBodyFunctionExpression
deriving DecidableEq, Repr

/-- A function node: its syntactic form, whether it has a body, and the
`declare` flag. -/
structure Function where
  type : FunctionType
  body : Option Unit
  declare : Bool
deriving DecidableEq, Repr

def Function.is_expression (f : Function) : Bool :=
  decide (f.type = FunctionType.FunctionExpression)

/-- Modelled from the spec: the "type-only function form" test on a function
node (the `Function` accessor lives outside the provided sources). A function
form is type-only when it is a declare-function or empty-body overload
signature form, has no body, or carries the declare flag. -/
def Function.is_typescript_syntax (f : Function) : Bool :=
  decide (f.type = FunctionType.TSDeclareFunction
      ∨ f.type = FunctionType.TSEmptyBodyFunctionExpression)
    || f.body.isNone || f.declare

inductive ClassType where
  | ClassDeclaration
  | ClassExpression
deriving DecidableEq, Repr

structure Class where
  type : ClassType
deriving DecidableEq, Repr

def Class.is_expression (c : Class) : Bool :=
  decide (c.type = ClassType.ClassExpression)

/-- Statements, as far as the engine inspects them: the for-in/for-of body
check only distinguishes return statements, block statements (and the head of
a block body), and everything else. -/
inductive Statement where
  | returnStatement
  | blockStatement (body : List Statement)
  | otherStatement

inductive TSModuleDeclarationKind where
  | Global
  | Module
  | Namespace
deriving DecidableEq, Repr

def TSModuleDeclarationKind.is_global (k : TSModuleDeclarationKind) : Bool :=
  decide (k = TSModuleDeclarationKind.Global)

structure TSModuleDeclaration where
  declare : Bool
  kind : TSModuleDeclarationKind
deriving DecidableEq, Repr

inductive MethodDefinitionKind where
  | Constructor
  | Method
  | Get
  | Set
deriving DecidableEq, Repr

def MethodDefinitionKind.is_constructor (k : MethodDefinitionKind) : Bool :=
  decide (k = MethodDefinitionKind.Constructor)

inductive MethodDefinitionType where
  | MethodDefinition
  | TSAbstractMethodDefinition
deriving DecidableEq, Repr

def MethodDefinitionType.is_abstract (t : MethodDefinitionType) : Bool :=
  decide (t = MethodDefinitionType.TSAbstractMethodDefinition)

structure MethodDefinition where
  type : MethodDefinitionType
  kind : MethodDefinitionKind
  value : Function
  override : Bool
deriving DecidableEq, Repr

inductive PropertyKind where
  | Init
  | Get
  | Set
deriving DecidableEq, Repr

structure ObjectProperty where
  kind : PropertyKind
deriving DecidableEq, Repr

/-- Binding patterns: a simple name, an object pattern (properties plus an
optional rest target), an array pattern (elements may be holes), or a default
(assignment) pattern wrapping another pattern. -/
inductive BindingPatternKind where
  | bindingIdentifier (name : String)
  | objectPattern (props : List BindingPatternKind) (rest : Option BindingPatternKind)
  | arrayPattern (elems : List (Option BindingPatternKind))
  | assignmentPattern (left : BindingPatternKind)

/-- Modelled from the spec: whether a pattern is a destructuring pattern (the
`BindingPatternKind` accessor lives outside the provided sources). Object and
array patterns are destructuring; a default pattern is destructuring when its
target is; a plain identifier is not. -/
def BindingPatternKind.is_destructuring_pattern : BindingPatternKind → Bool
  | .bindingIdentifier _ => false
  | .objectPattern _ _ => true
  | .arrayPattern _ => true
  | .assignmentPattern left => left.is_destructuring_pattern

inductive TSAccessibility where
  | Private
  | Protected
  | Public
deriving DecidableEq, Repr

/-- A formal parameter: its span (modelled as a stable identifier), its
binding pattern, and the parameter-property modifiers. -/
structure FormalParameter where
  span : Nat
  pattern : BindingPatternKind
  accessibility : Option TSAccessibility
  readonly : Bool
  override : Bool

/-- Modelled from the spec: a parameter "carries an accessibility/readonly
modifier" (the `FormalParameter` accessor lives outside the provided
sources). -/
def FormalParameter.has_modifier (p : FormalParameter) : Bool :=
  p.accessibility.isSome || p.readonly || p.override

structure FormalParameters where
  items : List FormalParameter

/-- The closed set of syntax-node kinds the engine pattern-matches on; every
kind it does not inspect is `otherKind`. -/
inductive AstKind where
  | classNode (c : Class)
  | functionNode (f : Function)
  | parenthesizedExpression
  | variableDeclaration
  | bindingIdentifier
  | simpleAssignmentTarget
  | assignmentTarget
  | forInStatement (body : Statement)
  | forOfStatement (body : Statement)
  | tsModuleDeclaration (ns : TSModuleDeclaration)
  | tsMappedType
  | formalParameters (ps : FormalParameters)
  | methodDefinition (m : MethodDefinition)
  | objectProperty (p : ObjectProperty)
  | otherKind

/-- The read-only symbol surface consumed by the engine: declaration node
kind, the ancestor chain of node kinds from the declaration (exclusive)
upward to the root, the introducing node kinds of the enclosing scopes, the
root-scope flag, and the reference count (zero for every symbol the engine is
invoked on). -/
structure Symbol where
  declarationKind : AstKind
  parents : List AstKind
  scopeAncestorNodes : List AstKind
  isRootScope : Bool
  referencesCount : Nat

/-! ## Rule options -/

inductive ArgsOption where
  | All
  | AfterUsed
  | None
deriving DecidableEq, Repr

def ArgsOption.is_none (o : ArgsOption) : Bool :=
  decide (o = ArgsOption.None)

def ArgsOption.is_all (o : ArgsOption) : Bool :=
  decide (o = ArgsOption.All)

inductive VarsOption where
  | All
  | Local
deriving DecidableEq, Repr

def VarsOption.is_local (o : VarsOption) : Bool :=
  decide (o = VarsOption.Local)

structure NoUnusedVars where
  args : ArgsOption
  vars : VarsOption

inductive VariableDeclarationKind where
  | Var
  | Let
  | Const
  | Using
  | AwaitUsing
deriving DecidableEq, Repr

def VariableDeclarationKind.is_var (k : VariableDeclarationKind) : Bool :=
  decide (k = VariableDeclarationKind.Var)

structure VariableDeclarator where
  kind : VariableDeclarationKind

/-! ## The Any-Used-Binding probe -/

/-- Modelled from the spec: the Binding Context bundles rule options, the
scope/symbol model and the module record; the probe consumes it only to
resolve, for a name introduced by a pattern, whether the name has a live
reference after the configured ignore-patterns are applied. That resolution
is collapsed here into a single oracle. -/
structure BindingContext where
  usedAfterIgnore : String → Bool

mutual

/-- Modelled from the spec: the Any-Used-Binding probe (its source file is
not among the provided sources). Returns true when any name the pattern
introduces, at any depth, has a live reference after ignore-pattern
exclusion. -/
def hasAnyUsedBinding (ctx : BindingContext) : BindingPatternKind → Bool
  | .bindingIdentifier n => ctx.usedAfterIgnore n
  | .objectPattern props rest =>
      hasAnyUsedBindingList ctx props || hasAnyUsedBindingOpt ctx rest
  | .arrayPattern elems => hasAnyUsedBindingOptList ctx elems
  | .assignmentPattern left => hasAnyUsedBinding ctx left

def hasAnyUsedBindingList (ctx : BindingContext) : List BindingPatternKind → Bool
  | [] => false
  | p :: ps => hasAnyUsedBinding ctx p || hasAnyUsedBindingList ctx ps

def hasAnyUsedBindingOpt (ctx : BindingContext) : Option BindingPatternKind → Bool
  | none => false
  | some p => hasAnyUsedBinding ctx p

def hasAnyUsedBindingOptList (ctx : BindingContext) : List (Option BindingPatternKind) → Bool
  | [] => false
  | e :: es => hasAnyUsedBindingOpt ctx e || hasAnyUsedBindingOptList ctx es

end

/-! ## Decision engine (allowed.rs) -/

/-- Whether the declaration of this symbol is itself used: an expression-form
class or function is always passed as an argument or assigned, so its name
binding is incidental. -/
def Symbol.is_function_or_class_declaration_used (s : Symbol) : Bool :=
  match s.declarationKind with
  | .classNode c => c.is_expression
  | .functionNode f => f.is_expression
  | _ => false

/-- The ancestor walk of the for-in/for-of exemption, over the chain of
parent node kinds: transparent wrappers are skipped; at a for-in/for-of
statement the loop body decides; any other kind, or chain exhaustion, denies. -/
def forOfLoopWalk : List AstKind → Bool
  | [] => false
  | parent :: rest =>
    match parent with
    | .parenthesizedExpression
    | .variableDeclaration
    | .bindingIdentifier
    | .simpleAssignmentTarget
    | .assignmentTarget => forOfLoopWalk rest
    | .forInStatement body
    | .forOfStatement body =>
      (match body with
       | .returnStatement => true
       | .blockStatement b =>
         (match b.head? with
          | some Statement.returnStatement => true
          | _ => false)
       | _ => false)
    | _ => false

def Symbol.is_declared_in_for_of_loop (s : Symbol) : Bool :=
  forOfLoopWalk s.parents

def is_ambient_namespace (namespace_ : TSModuleDeclaration) : Bool :=
  namespace_.declare || namespace_.kind.is_global

/-- Whether any enclosing scope of the symbol is introduced by an ambient
module/namespace declaration. -/
def Symbol.is_in_declared_module (s : Symbol) : Bool :=
  s.scopeAncestorNodes.any fun node =>
    match node with
    | .tsModuleDeclaration ns => is_ambient_namespace ns
    | _ => false

def NoUnusedVars.is_allowed_ts_namespace (_self : NoUnusedVars) (symbol : Symbol)
    (namespace_ : TSModuleDeclaration) : Bool :=
  if is_ambient_namespace namespace_ then true
  else symbol.is_in_declared_module

/-- Returns true if this unused variable declaration should be allowed
(i.e. not reported). -/
def NoUnusedVars.is_allowed_variable_declaration (self : NoUnusedVars) (symbol : Symbol)
    (decl : VariableDeclarator) : Bool :=
  if decl.kind.is_var && self.vars.is_local && symbol.isRootScope then true
  else if symbol.is_declared_in_for_of_loop then true
  else false

/-- Locate the first formal-parameter-list node in the ancestor chain,
returning it together with the remaining chain above it (the ancestors of the
list node). Mirrors the find-map over the symbol's parents. -/
def findFormalParameters : List AstKind → Option (FormalParameters × List AstKind)
  | [] => none
  | k :: rest =>
    match k with
    | .formalParameters ps => some (ps, rest)
    | _ => findFormalParameters rest

/-- Whether the first ancestor above the parameter list is a declare-function
form. -/
def isTSDeclareFunctionNode : AstKind → Bool
  | .functionNode f => decide (f.type = FunctionType.TSDeclareFunction)
  | _ => false

/-- The method/overload shortcut: given the ancestor chain above the
formal-parameter-list node, an unused parameter is allowed regardless of mode
for setters, overload signatures, bodiless or override methods, abstract
methods, and modifier-bearing constructor parameters. -/
def is_allowed_param_because_of_method (param : FormalParameter) :
    List AstKind → Bool
  | [] => false
  | parent :: rest =>
    if isTSDeclareFunctionNode parent then true
    else
      match rest with
      | [] => false
      | maybeMethodOrFn :: _ =>
        match maybeMethodOrFn with
        | .methodDefinition m =>
          if m.kind = MethodDefinitionKind.Set then true
          else if m.value.type = FunctionType.TSEmptyBodyFunctionExpression
              ∨ m.override = true then true
          else if m.kind.is_constructor then param.has_modifier
          else if m.type.is_abstract then true
          else false
        | .objectProperty p => decide (p.kind = PropertyKind.Set)
        | .functionNode f =>
          f.body.isNone || decide (f.type = FunctionType.TSDeclareFunction)
        | _ => false

/-- Returns true if this unused parameter should be allowed (i.e. not
reported). -/
def NoUnusedVars.is_allowed_argument (self : NoUnusedVars) (ctx : BindingContext)
    (symbol : Symbol) (param : FormalParameter) : Bool :=
  if self.args.is_none then true
  else
    match findFormalParameters symbol.parents with
    | none => false
    | some (params, paramsAncestors) =>
      if is_allowed_param_because_of_method param paramsAncestors then true
      else if self.args.is_all then false
      else if param.pattern.is_destructuring_pattern then false
      else
        match params.items.findIdx? (fun p => p.span == param.span) with
        | none => false
        | some position =>
          if position = params.items.length - 1 then false
          else
            (params.items.drop (position + 1)).any fun p =>
              p.has_modifier || hasAnyUsedBinding ctx p.pattern

/-- Returns true if this unused binding rest element should be allowed: the
first function-like ancestor decides, by whether it is a type-only function
form. -/
def restElementWalk : List AstKind → Bool
  | [] => false
  | parent :: rest =>
    match parent with
    | .functionNode f => f.is_typescript_syntax
    | _ => restElementWalk rest

def NoUnusedVars.is_allowed_binding_rest_element (symbol : Symbol) : Bool :=
  restElementWalk symbol.parents

/-! ## File-discovery entry filter (walk.rs) -/

inductive FileType where
  | dir
  | file
  | symlink
deriving DecidableEq, Repr

def FileType.is_dir (t : FileType) : Bool :=
  decide (t = FileType.dir)

/-- A path as the filter observes it: its final component and its extension
(either may be absent). Character sequences stand for OS strings. -/
structure WalkPath where
  fileName : Option (List Char)
  extension : Option (List Char)
deriving DecidableEq, Repr

structure DirEntry where
  fileType : Option FileType
  path : WalkPath
deriving DecidableEq, Repr

/-- Whether `pat` occurs at the head of `s`. -/
def seqStartsWith : List Char → List Char → Bool
  | [], _ => true
  | _ :: _, [] => false
  | a :: ps, b :: qs => a == b && seqStartsWith ps qs

/-- Whether `pat` occurs as a contiguous subsequence of `s` (substring
containment). -/
def seqContains (pat : List Char) : List Char → Bool
  | [] => pat.isEmpty
  | c :: rest => seqStartsWith pat (c :: rest) || seqContains pat rest

def minifiedMarkers : List (List Char) :=
  [".min.".toList, "-min.".toList, "_min.".toList]

/-- The entry filter of the traversal: keep only non-directory entries whose
file name avoids every minified-file marker and whose extension is in the
configured allow-list. -/
def is_wanted_entry (dir_entry : DirEntry) (extensions : List (List Char)) : Bool :=
  match dir_entry.fileType with
  | none => false
  | some file_type =>
    if file_type.is_dir then false
    else
      match dir_entry.path.fileName with
      | none => false
      | some file_name =>
        if minifiedMarkers.any (fun e => seqContains e file_name) then false
        else
          match dir_entry.path.extension with
          | none => false
          | some extension => extensions.contains extension

/-- The per-entry visit of the walk: entries that arrive without error and
pass the filter contribute their path, unchanged; erroneous entries are
skipped. The unordered collection the walk produces is modelled as the list
of contributions in visit order. -/
def walkCollect (extensions : List (List Char)) :
    List (Except Unit DirEntry) → List WalkPath
  | [] => []
  | Except.ok entry :: rest =>
    if is_wanted_entry entry extensions then entry.path :: walkCollect extensions rest
    else walkCollect extensions rest
  | Except.error _ :: rest => walkCollect extensions rest

structure IgnoreOptions where
  no_ignore : Bool
  ignore_path : List Char

/-- The traversal configuration assembled by the walk constructor: standard
per-directory ignore handling off, global git excludes off, symbolic links
followed; the custom ignore-file name and user override patterns are
installed only when ignore handling is enabled. -/
structure WalkBuilderConfig where
  standardIgnore : Bool
  gitGlobal : Bool
  followLinks : Bool
  customIgnoreFilename : Option (List Char)
  overrides : Option Unit

def walkNewConfig (options : IgnoreOptions) (override_builder : Option Unit) :
    WalkBuilderConfig :=
  { standardIgnore := false
    gitGlobal := false
    followLinks := true
    customIgnoreFilename := if options.no_ignore then none else some options.ignore_path
    overrides := if options.no_ignore then none else override_builder }

/-! ## Spec-side characterizations (stated from the specification text, to be
compared with the source-derived definitions above) -/

/-- The transparent wrapper kinds the for-in/for-of ancestor walk skips. -/
def isTransparentWrapper : AstKind → Bool
  | .parenthesizedExpression
  | .variableDeclaration
  | .bindingIdentifier
  | .simpleAssignmentTarget
  | .assignmentTarget => true
  | _ => false

/-- The loop-body test of the for-in/for-of exemption: the body is directly a
return statement, or a block whose first statement is a return statement. -/
def loopBodyIsEarlyReturn : Statement → Bool
  | .returnStatement => true
  | .blockStatement b =>
    (match b.head? with
     | some Statement.returnStatement => true
     | _ => false)
  | .otherStatement => false

/-- Spec-side characterization of the for-in/for-of exemption: the ancestor
chain splits into a prefix of transparent wrappers followed by a for-in or
for-of statement whose body is an early return. -/
def SpecForOfExemption (chain : List AstKind) : Prop :=
  ∃ pre body rest,
    (chain = pre ++ AstKind.forInStatement body :: rest
      ∨ chain = pre ++ AstKind.forOfStatement body :: rest)
    ∧ (∀ k ∈ pre, isTransparentWrapper k = true)
    ∧ loopBodyIsEarlyReturn body = true

def isFunctionNode : AstKind → Bool
  | .functionNode _ => true
  | _ => false

/-! ## Concrete fixtures used to evaluate the definitions -/

def exCtxB : BindingContext := ⟨fun n => n == "b"⟩

def exParamA : FormalParameter :=
  ⟨0, BindingPatternKind.bindingIdentifier "a", none, false, false⟩

def exParamB : FormalParameter :=
  ⟨1, BindingPatternKind.bindingIdentifier "b", none, false, false⟩

def exParams : FormalParameters := ⟨[exParamA, exParamB]⟩

def exSymbolArg : Symbol :=
  ⟨AstKind.otherKind, [AstKind.formalParameters exParams, AstKind.otherKind], [], false, 0⟩

def exOptsAfterUsed : NoUnusedVars := ⟨ArgsOption.AfterUsed, VarsOption.All⟩

def exOptsAllArgs : NoUnusedVars := ⟨ArgsOption.All, VarsOption.All⟩

def exOptsArgsOff : NoUnusedVars := ⟨ArgsOption.None, VarsOption.All⟩

def exFnNormal : Function := ⟨FunctionType.FunctionExpression, some (), false⟩

def exFnDeclare : Function := ⟨FunctionType.TSDeclareFunction, none, false⟩

def exCtorMethod : MethodDefinition :=
  ⟨MethodDefinitionType.MethodDefinition, MethodDefinitionKind.Constructor, exFnNormal, false⟩

def exParamProp : FormalParameter :=
  ⟨2, BindingPatternKind.bindingIdentifier "x", some TSAccessibility.Public, false, false⟩

def exParamY : FormalParameter :=
  ⟨3, BindingPatternKind.bindingIdentifier "y", none, false, false⟩

def exParamsCtor : FormalParameters := ⟨[exParamY, exParamProp]⟩

def exSymbolCtor : Symbol :=
  ⟨AstKind.otherKind, [AstKind.formalParameters exParamsCtor, AstKind.otherKind], [], false, 0⟩

def exSymbolNoParams : Symbol := ⟨AstKind.otherKind, [], [], false, 0⟩

def exSymbolRoot : Symbol := ⟨AstKind.otherKind, [AstKind.otherKind], [], true, 0⟩

def exSymbolClassExpr : Symbol :=
  ⟨AstKind.classNode ⟨ClassType.ClassExpression⟩, [AstKind.otherKind], [], false, 5⟩

def exAmbientNs : TSModuleDeclaration := ⟨true, TSModuleDeclarationKind.Namespace⟩

def exSymbolPlain : Symbol := ⟨AstKind.otherKind, [], [], false, 0⟩

def exEntryJs : DirEntry := ⟨some FileType.file, ⟨some "foo.js".toList, some "js".toList⟩⟩

def exFnEmptyBody : Function := ⟨FunctionType.TSEmptyBodyFunctionExpression, none, false⟩

def exCtorOverload : MethodDefinition :=
  ⟨MethodDefinitionType.MethodDefinition, MethodDefinitionKind.Constructor,
   exFnEmptyBody, false⟩

def exSymbolForOf : Symbol :=
  ⟨AstKind.otherKind,
   [AstKind.variableDeclaration,
    AstKind.forOfStatement (Statement.blockStatement [Statement.returnStatement])],
   [], false, 0⟩

def exSymbolRest : Symbol :=
  ⟨AstKind.otherKind, [AstKind.otherKind, AstKind.functionNode exFnDeclare], [], false, 0⟩

/-! ## Helper lemmas -/

theorem allowedArgument_afterUsed_eq (self : NoUnusedVars) (ctx : BindingContext)
    (symbol : Symbol) (param : FormalParameter) (params : FormalParameters)
    (anc : List AstKind)
    (hargs : self.args = ArgsOption.AfterUsed)
    (hfind : findFormalParameters symbol.parents = some (params, anc))
    (hshort : is_allowed_param_because_of_method param anc = false) :
    self.is_allowed_argument ctx symbol param =
      (if param.pattern.is_destructuring_pattern then false
       else
         match params.items.findIdx? (fun p => p.span == param.span) with
         | none => false
         | some position =>
           if position = params.items.length - 1 then false
           else
             (params.items.drop (position + 1)).any fun p =>
               p.has_modifier || hasAnyUsedBinding ctx p.pattern) := by
  unfold NoUnusedVars.is_allowed_argument
  rw [hargs, hfind]
  simp [ArgsOption.is_none, ArgsOption.is_all, hshort]

theorem ambient_node_iff (node : AstKind) :
    (match node with
     | AstKind.tsModuleDeclaration ns => is_ambient_namespace ns
     | _ => false) = true
      ↔ ∃ ns, node = AstKind.tsModuleDeclaration ns
          ∧ (ns.declare = true ∨ ns.kind.is_global = true) := by
  cases node <;>
    simp [is_ambient_namespace, TSModuleDeclarationKind.is_global]

/-! ## Claim theorems -/

/-- C10: for a var-kind declarator under variable mode LocalOnly, a
root-scope symbol is allowed, whatever its ancestor chain (so before and
independently of the for-in/for-of exemption). -/
theorem C10_var_local_root (self : NoUnusedVars) (s : Symbol) (decl : VariableDeclarator)
    (h1 : decl.kind.is_var = true) (h2 : self.vars.is_local = true)
    (h3 : s.isRootScope = true) :
    self.is_allowed_variable_declaration s decl = true := by
  unfold NoUnusedVars.is_allowed_variable_declaration
  simp [h1, h2, h3]

theorem C10_var_local_root_witness :
    NoUnusedVars.is_allowed_variable_declaration ⟨ArgsOption.AfterUsed, VarsOption.Local⟩
      exSymbolRoot ⟨VariableDeclarationKind.Var⟩ = true :=
  C10_var_local_root ⟨ArgsOption.AfterUsed, VarsOption.Local⟩ exSymbolRoot
    ⟨VariableDeclarationKind.Var⟩ rfl rfl rfl

/-- C6: the function/class-as-expression predicate allows exactly the
declarations whose own node is an expression-form class or function, and its
result depends only on the declaration node kind (not on reference count,
scope or nesting). -/
theorem C6_expression_form_declaration (s : Symbol) :
    (s.is_function_or_class_declaration_used = true ↔
       (∃ c : Class, s.declarationKind = AstKind.classNode c
           ∧ c.type = ClassType.ClassExpression)
       ∨ (∃ f : Function, s.declarationKind = AstKind.functionNode f
           ∧ f.type = FunctionType.FunctionExpression))
    ∧ (∀ t : Symbol, s.declarationKind = t.declarationKind →
       s.is_function_or_class_declaration_used
         = t.is_function_or_class_declaration_used) := by
  constructor
  · unfold Symbol.is_function_or_class_declaration_used
    cases h : s.declarationKind <;>
      simp [h, Class.is_expression, Function.is_expression]
  · intro t h
    unfold Symbol.is_function_or_class_declaration_used
    rw [h]

theorem C6_expression_form_declaration_witness :
    exSymbolClassExpr.is_function_or_class_declaration_used = true :=
  (C6_expression_form_declaration exSymbolClassExpr).1.mpr
    (Or.inl ⟨⟨ClassType.ClassExpression⟩, rfl, rfl⟩)

/-- C5: a symbol is in a declared module exactly when some enclosing scope is
introduced by an ambient module/namespace declaration (declare flag set or
global kind); and the namespace predicate first allows an ambient namespace
directly, then falls back to the scope walk. -/
theorem C5_ambient_module_exemption :
    (∀ s : Symbol, s.is_in_declared_module = true ↔
        ∃ ns : TSModuleDeclaration,
          AstKind.tsModuleDeclaration ns ∈ s.scopeAncestorNodes
            ∧ (ns.declare = true ∨ ns.kind.is_global = true))
    ∧ (∀ (self : NoUnusedVars) (s : Symbol) (ns : TSModuleDeclaration),
        is_ambient_namespace ns = true → self.is_allowed_ts_namespace s ns = true)
    ∧ (∀ (self : NoUnusedVars) (s : Symbol) (ns : TSModuleDeclaration),
        self.is_allowed_ts_namespace s ns
          = (is_ambient_namespace ns || s.is_in_declared_module)) := by
  refine ⟨?_, ?_, ?_⟩
  · intro s
    unfold Symbol.is_in_declared_module
    rw [List.any_eq_true]
    constructor
    · rintro ⟨node, hmem, hnode⟩
      obtain ⟨ns, rfl, hns⟩ := (ambient_node_iff node).mp hnode
      exact ⟨ns, hmem, hns⟩
    · rintro ⟨ns, hmem, hns⟩
      exact ⟨AstKind.tsModuleDeclaration ns, hmem,
        (ambient_node_iff _).mpr ⟨ns, rfl, hns⟩⟩
  · intro self s ns h
    unfold NoUnusedVars.is_allowed_ts_namespace
    simp [h]
  · intro self s ns
    unfold NoUnusedVars.is_allowed_ts_namespace
    by_cases h : is_ambient_namespace ns = true
    · simp [h]
    · simp [Bool.not_eq_true] at h
      simp [h]

theorem C5_ambient_module_exemption_witness :
    exOptsAfterUsed.is_allowed_ts_namespace exSymbolPlain exAmbientNs = true :=
  C5_ambient_module_exemption.2.1 exOptsAfterUsed exSymbolPlain exAmbientNs rfl

/-- C1: under mode AfterUsed, with the formal-parameter list located and no
method/overload shortcut applying: a destructuring-pattern parameter is
denied; the last parameter of its list is denied; otherwise the parameter is
allowed exactly when some later parameter of the list carries a modifier or
has a used binding per the Any-Used-Binding probe. -/
theorem C1_after_used_decision (self : NoUnusedVars) (ctx : BindingContext)
    (symbol : Symbol) (param : FormalParameter) (params : FormalParameters)
    (anc : List AstKind)
    (hargs : self.args = ArgsOption.AfterUsed)
    (hfind : findFormalParameters symbol.parents = some (params, anc))
    (hshort : is_allowed_param_because_of_method param anc = false) :
    (param.pattern.is_destructuring_pattern = true →
       self.is_allowed_argument ctx symbol param = false)
    ∧ (∀ position,
        params.items.findIdx? (fun p => p.span == param.span) = some position →
        position = params.items.length - 1 →
        self.is_allowed_argument ctx symbol param = false)
    ∧ (∀ position,
        param.pattern.is_destructuring_pattern = false →
        params.items.findIdx? (fun p => p.span == param.span) = some position →
        position ≠ params.items.length - 1 →
        (self.is_allowed_argument ctx symbol param = true ↔
          (params.items.drop (position + 1)).any
            (fun p => p.has_modifier || hasAnyUsedBinding ctx p.pattern) = true)) := by
  have heq := allowedArgument_afterUsed_eq self ctx symbol param params anc hargs hfind hshort
  refine ⟨?_, ?_, ?_⟩
  · intro hd
    rw [heq, hd]
    simp
  · intro position hidx hlast
    rw [heq]
    by_cases hd : param.pattern.is_destructuring_pattern = true
    · simp [hd]
    · simp only [Bool.not_eq_true] at hd
      simp [hd, hidx, hlast]
  · intro position hd hidx hne
    rw [heq]
    simp [hd, hidx, hne]

theorem C1_after_used_decision_witness :
    exOptsAfterUsed.is_allowed_argument exCtxB exSymbolArg exParamA = true := by
  have h := C1_after_used_decision exOptsAfterUsed exCtxB exSymbolArg exParamA exParams
    [AstKind.otherKind] rfl rfl rfl
  exact (h.2.2 0 rfl rfl (by decide)).mpr (by decide)

/-- C2: the method/overload shortcut allows the parameter, in any mode, when
the node above the parameter list is a declare-function form; or when the
construct above that is a setter (method or set-kind object property), a
function with no body or a declare-function form, a method with an empty-body
overload form or marked override, or an abstract (non-constructor) method. -/
theorem C2_method_overload_shortcut :
    (∀ (param : FormalParameter) (f : Function) (rest : List AstKind),
       f.type = FunctionType.TSDeclareFunction →
       is_allowed_param_because_of_method param (AstKind.functionNode f :: rest) = true)
    ∧ (∀ (param : FormalParameter) (a : AstKind) (m : MethodDefinition) (rest : List AstKind),
        m.kind = MethodDefinitionKind.Set →
        is_allowed_param_because_of_method param
          (a :: AstKind.methodDefinition m :: rest) = true)
    ∧ (∀ (param : FormalParameter) (a : AstKind) (p : ObjectProperty) (rest : List AstKind),
        p.kind = PropertyKind.Set →
        is_allowed_param_because_of_method param
          (a :: AstKind.objectProperty p :: rest) = true)
    ∧ (∀ (param : FormalParameter) (a : AstKind) (f : Function) (rest : List AstKind),
        f.body = none ∨ f.type = FunctionType.TSDeclareFunction →
        is_allowed_param_because_of_method param
          (a :: AstKind.functionNode f :: rest) = true)
    ∧ (∀ (param : FormalParameter) (a : AstKind) (m : MethodDefinition) (rest : List AstKind),
        m.value.type = FunctionType.TSEmptyBodyFunctionExpression ∨ m.override = true →
        is_allowed_param_because_of_method param
          (a :: AstKind.methodDefinition m :: rest) = true)
    ∧ (∀ (param : FormalParameter) (a : AstKind) (m : MethodDefinition) (rest : List AstKind),
        m.type.is_abstract = true → m.kind.is_constructor = false →
        is_allowed_param_because_of_method param
          (a :: AstKind.methodDefinition m :: rest) = true) := by
  refine ⟨?_, ?_, ?_, ?_, ?_, ?_⟩
  · intro param f rest h
    simp [is_allowed_param_because_of_method, isTSDeclareFunctionNode, h]
  · intro param a m rest hk
    by_cases ha : isTSDeclareFunctionNode a = true <;>
      simp [is_allowed_param_because_of_method, ha, hk]
  · intro param a p rest hk
    by_cases ha : isTSDeclareFunctionNode a = true <;>
      simp [is_allowed_param_because_of_method, ha, hk]
  · intro param a f rest h
    by_cases ha : isTSDeclareFunctionNode a = true <;>
      rcases h with h | h <;>
        simp [is_allowed_param_because_of_method, ha, h]
  · intro param a m rest h
    by_cases ha : isTSDeclareFunctionNode a = true <;>
      by_cases hs : m.kind = MethodDefinitionKind.Set <;>
        simp [is_allowed_param_because_of_method, ha, hs, h]
  · intro param a m rest habs hcon
    simp only [MethodDefinitionType.is_abstract, decide_eq_true_eq] at habs
    simp only [MethodDefinitionKind.is_constructor, decide_eq_false_iff_not] at hcon
    by_cases ha : isTSDeclareFunctionNode a = true <;>
      by_cases hs : m.kind = MethodDefinitionKind.Set <;>
        by_cases hov : (m.value.type = FunctionType.TSEmptyBodyFunctionExpression
            ∨ m.override = true) <;>
          simp [is_allowed_param_because_of_method, MethodDefinitionKind.is_constructor,
            MethodDefinitionType.is_abstract, ha, hs, hov, hcon, habs]

theorem C2_method_overload_shortcut_witness :
    is_allowed_param_because_of_method exParamA [AstKind.functionNode exFnDeclare] = true :=
  C2_method_overload_shortcut.1 exParamA exFnDeclare [] rfl

/-- C3: above a constructor (first ancestor not a declare-function form, the
constructor neither an empty-body overload nor marked override), the method
shortcut yields exactly the parameter's modifier flag; and under AfterUsed a
later sibling carrying a modifier counts as used, allowing the parameter. -/
theorem C3_constructor_parameter_property :
    (∀ (param : FormalParameter) (a : AstKind) (m : MethodDefinition) (rest : List AstKind),
       isTSDeclareFunctionNode a = false →
       m.kind = MethodDefinitionKind.Constructor →
       m.value.type ≠ FunctionType.TSEmptyBodyFunctionExpression →
       m.override = false →
       is_allowed_param_because_of_method param
         (a :: AstKind.methodDefinition m :: rest) = param.has_modifier)
    ∧ (∀ (self : NoUnusedVars) (ctx : BindingContext) (symbol : Symbol)
        (param q : FormalParameter) (params : FormalParameters) (anc : List AstKind)
        (position : Nat),
        self.args = ArgsOption.AfterUsed →
        findFormalParameters symbol.parents = some (params, anc) →
        is_allowed_param_because_of_method param anc = false →
        param.pattern.is_destructuring_pattern = false →
        params.items.findIdx? (fun p => p.span == param.span) = some position →
        q ∈ params.items.drop (position + 1) →
        q.has_modifier = true →
        self.is_allowed_argument ctx symbol param = true) := by
  constructor
  · intro param a m rest ha hk hv ho
    simp [is_allowed_param_because_of_method, MethodDefinitionKind.is_constructor,
      ha, hk, hv, ho]
  · intro self ctx symbol param q params anc position hargs hfind hshort hd hidx hq hmod
    have heq := allowedArgument_afterUsed_eq self ctx symbol param params anc hargs hfind hshort
    rw [heq]
    have hlt : position + 1 < params.items.length := by
      by_contra hge
      push_neg at hge
      have hnil : params.items.drop (position + 1) = [] :=
        List.drop_eq_nil_iff.mpr hge
      rw [hnil] at hq
      exact absurd hq (List.not_mem_nil q)
    have hne : position ≠ params.items.length - 1 := by omega
    have hany : (params.items.drop (position + 1)).any
        (fun p => p.has_modifier || hasAnyUsedBinding ctx p.pattern) = true :=
      List.any_eq_true.mpr ⟨q, hq, by simp [hmod]⟩
    simp [hd, hidx, hne, hany]

theorem C3_constructor_parameter_property_witness :
    is_allowed_param_because_of_method exParamProp
        [AstKind.functionNode exFnNormal, AstKind.methodDefinition exCtorMethod] = true
    ∧ exOptsAfterUsed.is_allowed_argument exCtxB exSymbolCtor exParamY = true := by
  constructor
  · have h := C3_constructor_parameter_property.1 exParamProp (AstKind.functionNode exFnNormal)
      exCtorMethod [] rfl rfl (by decide) rfl
    rw [h]
    rfl
  · exact C3_constructor_parameter_property.2 exOptsAfterUsed exCtxB exSymbolCtor exParamY
      exParamProp exParamsCtor [AstKind.otherKind] 0 rfl rfl rfl rfl rfl
      (List.Mem.head _) rfl

/-- C3 counterexample: a modifier-less parameter of a constructor overload
signature (empty-body function form) is exempted by the method shortcut, so
for constructor parameters the shortcut is not equivalent to the presence of
a modifier. -/
theorem C3_counterexample_ctor_overload :
    is_allowed_param_because_of_method exParamA
        [AstKind.functionNode exFnEmptyBody, AstKind.methodDefinition exCtorOverload] = true
      ∧ exParamA.has_modifier = false :=
  ⟨by decide, rfl⟩

/-- C8 counterexample: with argument-checking mode None, a parameter whose
ancestor chain contains no formal-parameter-list node is allowed (the
predicate returns true), not denied as the claim states. -/
theorem C8_counterexample_args_off :
    exOptsArgsOff.is_allowed_argument exCtxB exSymbolNoParams exParamA = true := rfl

/-- C8 amended: when argument checking is enabled (mode not None), a
parameter with no enclosing formal-parameter list in its ancestor chain is
denied; and a parameter whose list is found, for which the method/overload
shortcut does not apply, but which cannot be located by position within that
list, is denied. -/
theorem C8_internal_consistency_fallback :
    (∀ (self : NoUnusedVars) (ctx : BindingContext) (s : Symbol) (param : FormalParameter),
       self.args ≠ ArgsOption.None →
       findFormalParameters s.parents = none →
       self.is_allowed_argument ctx s param = false)
    ∧ (∀ (self : NoUnusedVars) (ctx : BindingContext) (s : Symbol) (param : FormalParameter)
        (params : FormalParameters) (anc : List AstKind),
        self.args ≠ ArgsOption.None →
        findFormalParameters s.parents = some (params, anc) →
        is_allowed_param_because_of_method param anc = false →
        params.items.findIdx? (fun p => p.span == param.span) = none →
        self.is_allowed_argument ctx s param = false) := by
  constructor
  · intro self ctx s param hne hfind
    unfold NoUnusedVars.is_allowed_argument
    rw [hfind]
    simp [ArgsOption.is_none, hne]
  · intro self ctx s param params anc hne hfind hshort hidx
    unfold NoUnusedVars.is_allowed_argument
    rw [hfind]
    cases hargs : self.args with
    | All =>
      simp [ArgsOption.is_none, ArgsOption.is_all, hshort]
    | AfterUsed =>
      by_cases hd : param.pattern.is_destructuring_pattern = true
      · simp [ArgsOption.is_none, ArgsOption.is_all, hshort, hd]
      · simp only [Bool.not_eq_true] at hd
        simp [ArgsOption.is_none, ArgsOption.is_all, hshort, hd, hidx]
    | None => exact absurd hargs hne

theorem C8_internal_consistency_fallback_witness :
    exOptsAllArgs.is_allowed_argument exCtxB exSymbolNoParams exParamA = false :=
  C8_internal_consistency_fallback.1 exOptsAllArgs exCtxB exSymbolNoParams exParamA
    (by decide) rfl

theorem forOfLoopWalk_wrapper_cons (k : AstKind) (l : List AstKind)
    (h : isTransparentWrapper k = true) :
    forOfLoopWalk (k :: l) = forOfLoopWalk l := by
  cases k <;> simp_all [isTransparentWrapper, forOfLoopWalk]

theorem forOfLoopWalk_forIn_cons (body : Statement) (l : List AstKind) :
    forOfLoopWalk (AstKind.forInStatement body :: l) = loopBodyIsEarlyReturn body := by
  cases body <;> rfl

theorem forOfLoopWalk_forOf_cons (body : Statement) (l : List AstKind) :
    forOfLoopWalk (AstKind.forOfStatement body :: l) = loopBodyIsEarlyReturn body := by
  cases body <;> rfl

theorem specForOf_cons_wrapper (k : AstKind) (l : List AstKind)
    (hw : isTransparentWrapper k = true) :
    SpecForOfExemption (k :: l) ↔ SpecForOfExemption l := by
  constructor
  · rintro ⟨pre, body, r2, hsplit, hpre, hbody⟩
    cases pre with
    | nil =>
      exfalso
      rcases hsplit with h | h <;>
        (rw [List.nil_append] at h
         injection h with hk hl
         subst hk
         simp [isTransparentWrapper] at hw)
    | cons p pre2 =>
      rcases hsplit with h | h
      · rw [List.cons_append] at h
        injection h with hk hl
        exact ⟨pre2, body, r2, Or.inl hl,
          fun x hx => hpre x (List.mem_cons_of_mem p hx), hbody⟩
      · rw [List.cons_append] at h
        injection h with hk hl
        exact ⟨pre2, body, r2, Or.inr hl,
          fun x hx => hpre x (List.mem_cons_of_mem p hx), hbody⟩
  · rintro ⟨pre, body, r2, hsplit, hpre, hbody⟩
    refine ⟨k :: pre, body, r2, ?_, ?_, hbody⟩
    · rcases hsplit with h | h
      · exact Or.inl (by rw [List.cons_append, h])
      · exact Or.inr (by rw [List.cons_append, h])
    · intro x hx
      rcases List.mem_cons.mp hx with h | h
      · rw [h]; exact hw
      · exact hpre x h

theorem specForOf_cons_forIn (body : Statement) (l : List AstKind) :
    SpecForOfExemption (AstKind.forInStatement body :: l)
      ↔ loopBodyIsEarlyReturn body = true := by
  constructor
  · rintro ⟨pre, body2, r2, hsplit, hpre, hbody⟩
    cases pre with
    | nil =>
      rcases hsplit with h | h <;> rw [List.nil_append] at h <;> injection h with hk hl
      · injection hk with hb
        rw [hb]
        exact hbody
      · exact AstKind.noConfusion hk
    | cons p pre2 =>
      exfalso
      rcases hsplit with h | h <;>
        (rw [List.cons_append] at h
         injection h with hk hl
         have hp := hpre p (List.mem_cons_self p pre2)
         rw [← hk] at hp
         simp [isTransparentWrapper] at hp)
  · intro hbody
    exact ⟨[], body, l, Or.inl rfl, fun x hx => absurd hx (List.not_mem_nil x), hbody⟩

theorem specForOf_cons_forOf (body : Statement) (l : List AstKind) :
    SpecForOfExemption (AstKind.forOfStatement body :: l)
      ↔ loopBodyIsEarlyReturn body = true := by
  constructor
  · rintro ⟨pre, body2, r2, hsplit, hpre, hbody⟩
    cases pre with
    | nil =>
      rcases hsplit with h | h <;> rw [List.nil_append] at h <;> injection h with hk hl
      · exact AstKind.noConfusion hk
      · injection hk with hb
        rw [hb]
        exact hbody
    | cons p pre2 =>
      exfalso
      rcases hsplit with h | h <;>
        (rw [List.cons_append] at h
         injection h with hk hl
         have hp := hpre p (List.mem_cons_self p pre2)
         rw [← hk] at hp
         simp [isTransparentWrapper] at hp)
  · intro hbody
    exact ⟨[], body, l, Or.inr rfl, fun x hx => absurd hx (List.not_mem_nil x), hbody⟩

theorem specForOf_cons_other (k : AstKind) (l : List AstKind)
    (hw : isTransparentWrapper k = false)
    (hf1 : ∀ body, k ≠ AstKind.forInStatement body)
    (hf2 : ∀ body, k ≠ AstKind.forOfStatement body) :
    ¬ SpecForOfExemption (k :: l) := by
  rintro ⟨pre, body, r2, hsplit, hpre, hbody⟩
  cases pre with
  | nil =>
    rcases hsplit with h | h <;> rw [List.nil_append] at h <;> injection h with hk hl
    · exact hf1 body hk
    · exact hf2 body hk
  | cons p pre2 =>
    rcases hsplit with h | h <;>
      (rw [List.cons_append] at h
       injection h with hk hl
       have hp := hpre p (List.mem_cons_self p pre2)
       rw [← hk] at hp
       rw [hp] at hw
       exact absurd hw (by simp))

theorem forOfLoopWalk_iff (chain : List AstKind) :
    forOfLoopWalk chain = true ↔ SpecForOfExemption chain := by
  induction chain with
  | nil =>
    constructor
    · intro h
      exact absurd h (by simp [forOfLoopWalk])
    · rintro ⟨pre, body, r2, hsplit, hpre, hbody⟩
      rcases hsplit with h | h <;> exact absurd h.symm (by simp)
  | cons k rest ih =>
    by_cases hw : isTransparentWrapper k = true
    · rw [forOfLoopWalk_wrapper_cons k rest hw, specForOf_cons_wrapper k rest hw]
      exact ih
    · have hw2 : isTransparentWrapper k = false := by simpa using hw
      cases k <;>
        first
        | (rw [forOfLoopWalk_forIn_cons]
           exact (specForOf_cons_forIn _ rest).symm)
        | (rw [forOfLoopWalk_forOf_cons]
           exact (specForOf_cons_forOf _ rest).symm)
        | (constructor
           · intro h
             exact absurd h (by simp [forOfLoopWalk])
           · intro h
             exact absurd h (specForOf_cons_other _ _ rfl
               (fun b hb => AstKind.noConfusion hb) (fun b hb => AstKind.noConfusion hb)))
        | simp [isTransparentWrapper] at hw2

/-- C4: the for-in/for-of exemption holds exactly when the ancestor walk,
skipping only the transparent wrapper kinds, reaches a for-in/for-of
statement whose body is directly a return statement or a block opening with a
return statement; any other node or chain exhaustion denies. The variable
predicate reduces to this walk whenever the var/LocalOnly/root shortcut does
not fire. -/
theorem C4_for_of_loop_exemption :
    (∀ s : Symbol, s.is_declared_in_for_of_loop = true ↔ SpecForOfExemption s.parents)
    ∧ (∀ (self : NoUnusedVars) (s : Symbol) (decl : VariableDeclarator),
        (decl.kind.is_var && self.vars.is_local && s.isRootScope) = false →
        (self.is_allowed_variable_declaration s decl = true ↔
          SpecForOfExemption s.parents)) := by
  constructor
  · intro s
    exact forOfLoopWalk_iff s.parents
  · intro self s decl h
    unfold NoUnusedVars.is_allowed_variable_declaration
    rw [h]
    simp only [Bool.false_eq_true, if_false]
    constructor
    · intro hif
      by_cases hloop : s.is_declared_in_for_of_loop = true
      · exact (forOfLoopWalk_iff s.parents).mp hloop
      · rw [if_neg hloop] at hif
        exact absurd hif (by simp)
    · intro hspec
      rw [if_pos ?_]
      exact (forOfLoopWalk_iff s.parents).mpr hspec

theorem C4_for_of_loop_exemption_witness :
    exSymbolForOf.is_declared_in_for_of_loop = true :=
  (C4_for_of_loop_exemption.1 exSymbolForOf).mpr
    ⟨[AstKind.variableDeclaration],
     Statement.blockStatement [Statement.returnStatement], [],
     Or.inr rfl, by decide, rfl⟩

theorem specRestElement_cons_nonfn (k : AstKind) (l : List AstKind)
    (hk : isFunctionNode k = false) :
    (∃ pre f r2, k :: l = pre ++ AstKind.functionNode f :: r2
        ∧ (∀ x ∈ pre, isFunctionNode x = false) ∧ f.is_typescript_syntax = true)
      ↔ (∃ pre f r2, l = pre ++ AstKind.functionNode f :: r2
        ∧ (∀ x ∈ pre, isFunctionNode x = false) ∧ f.is_typescript_syntax = true) := by
  constructor
  · rintro ⟨pre, f, r2, hsplit, hpre, hts⟩
    cases pre with
    | nil =>
      rw [List.nil_append] at hsplit
      injection hsplit with h1 h2
      rw [h1] at hk
      simp [isFunctionNode] at hk
    | cons p pre2 =>
      rw [List.cons_append] at hsplit
      injection hsplit with h1 h2
      exact ⟨pre2, f, r2, h2, fun x hx => hpre x (List.mem_cons_of_mem p hx), hts⟩
  · rintro ⟨pre, f, r2, hsplit, hpre, hts⟩
    refine ⟨k :: pre, f, r2, by rw [List.cons_append, hsplit], ?_, hts⟩
    intro x hx
    rcases List.mem_cons.mp hx with h | h
    · rw [h]; exact hk
    · exact hpre x h

theorem restElementWalk_iff (chain : List AstKind) :
    restElementWalk chain = true ↔
      ∃ pre f rest, chain = pre ++ AstKind.functionNode f :: rest
        ∧ (∀ k ∈ pre, isFunctionNode k = false)
        ∧ f.is_typescript_syntax = true := by
  induction chain with
  | nil =>
    constructor
    · intro h
      exact absurd h (by simp [restElementWalk])
    · rintro ⟨pre, f, r2, hsplit, hpre, hts⟩
      exact absurd hsplit.symm (by simp)
  | cons k rest ih =>
    by_cases hf : isFunctionNode k = true
    · obtain ⟨f, rfl⟩ : ∃ f, k = AstKind.functionNode f := by
        cases k <;> first | exact ⟨_, rfl⟩ | simp [isFunctionNode] at hf
      constructor
      · intro h
        exact ⟨[], f, rest, rfl, fun x hx => absurd hx (List.not_mem_nil x),
          by simpa [restElementWalk] using h⟩
      · rintro ⟨pre, f2, r2, hsplit, hpre, hts⟩
        cases pre with
        | nil =>
          rw [List.nil_append] at hsplit
          injection hsplit with h1 h2
          injection h1 with hff
          rw [show restElementWalk (AstKind.functionNode f :: rest)
              = f.is_typescript_syntax from rfl, hff]
          exact hts
        | cons p pre2 =>
          rw [List.cons_append] at hsplit
          injection hsplit with h1 h2
          have hp := hpre p (List.mem_cons_self p pre2)
          rw [← h1] at hp
          simp [isFunctionNode] at hp
    · have hk : isFunctionNode k = false := by simpa using hf
      have hstep : restElementWalk (k :: rest) = restElementWalk rest := by
        cases k <;> first | rfl | simp [isFunctionNode] at hk
      rw [hstep, ih]
      exact (specRestElement_cons_nonfn k rest hk).symm

/-- C7: a binding rest element is allowed exactly when the ancestor walk
reaches a first function-like node and that function is a type-only form; a
chain with no function node denies. -/
theorem C7_rest_element_type_only :
    (∀ s : Symbol, NoUnusedVars.is_allowed_binding_rest_element s = true ↔
       ∃ pre f rest, s.parents = pre ++ AstKind.functionNode f :: rest
         ∧ (∀ k ∈ pre, isFunctionNode k = false)
         ∧ f.is_typescript_syntax = true)
    ∧ (∀ s : Symbol, (∀ k ∈ s.parents, isFunctionNode k = false) →
       NoUnusedVars.is_allowed_binding_rest_element s = false) := by
  constructor
  · intro s
    exact restElementWalk_iff s.parents
  · intro s h
    cases hw : NoUnusedVars.is_allowed_binding_rest_element s
    · rfl
    · exfalso
      obtain ⟨pre, f, r2, hsplit, hpre, hts⟩ := (restElementWalk_iff s.parents).mp hw
      have hmem : AstKind.functionNode f ∈ s.parents := by
        rw [hsplit]
        exact List.mem_append_right pre (List.mem_cons_self _ _)
      have := h (AstKind.functionNode f) hmem
      simp [isFunctionNode] at this

theorem C7_rest_element_type_only_witness :
    NoUnusedVars.is_allowed_binding_rest_element exSymbolRest = true :=
  (C7_rest_element_type_only.1 exSymbolRest).mpr
    ⟨[AstKind.otherKind], exFnDeclare, [], rfl, by decide, by decide⟩

theorem is_wanted_entry_spec (e : DirEntry) (exts : List (List Char))
    (h : is_wanted_entry e exts = true) :
    (∃ ft, e.fileType = some ft ∧ ft.is_dir = false)
    ∧ (∃ name, e.path.fileName = some name
         ∧ minifiedMarkers.any (fun pat => seqContains pat name) = false)
    ∧ (∃ ext, e.path.extension = some ext ∧ ext ∈ exts) := by
  unfold is_wanted_entry at h
  split at h
  · exact absurd h (by simp)
  · rename_i ft hft
    split at h
    · exact absurd h (by simp)
    · rename_i hdir
      split at h
      · exact absurd h (by simp)
      · rename_i name hname
        split at h
        · exact absurd h (by simp)
        · rename_i hmin
          split at h
          · exact absurd h (by simp)
          · rename_i ext hext
            refine ⟨⟨ft, hft, by simpa using hdir⟩,
              ⟨name, hname, by simpa using hmin⟩, ⟨ext, hext, ?_⟩⟩
            simpa using h

/-- C9: every path the walk yields comes from a non-directory entry whose
file name avoids the minified-file markers and whose extension is in the
allow-list, carried over unchanged (no canonicalization); and the traversal
configuration follows symbolic links. -/
theorem C9_walk_filter :
    (∀ (exts : List (List Char)) (entries : List (Except Unit DirEntry)) (p : WalkPath),
       p ∈ walkCollect exts entries →
       ∃ e : DirEntry, Except.ok e ∈ entries ∧ p = e.path
         ∧ (∃ ft, e.fileType = some ft ∧ ft.is_dir = false)
         ∧ (∃ name, e.path.fileName = some name
              ∧ minifiedMarkers.any (fun pat => seqContains pat name) = false)
         ∧ (∃ ext, e.path.extension = some ext ∧ ext ∈ exts))
    ∧ (∀ (options : IgnoreOptions) (override_builder : Option Unit),
        (walkNewConfig options override_builder).followLinks = true) := by
  constructor
  · intro exts entries p hp
    induction entries with
    | nil => simp [walkCollect] at hp
    | cons entry rest ih =>
      cases entry with
      | error err =>
        rw [show walkCollect exts (Except.error err :: rest)
            = walkCollect exts rest from rfl] at hp
        obtain ⟨e, hmem, hrest⟩ := ih hp
        exact ⟨e, List.mem_cons_of_mem _ hmem, hrest⟩
      | ok e0 =>
        rw [show walkCollect exts (Except.ok e0 :: rest)
            = (if is_wanted_entry e0 exts then e0.path :: walkCollect exts rest
               else walkCollect exts rest) from rfl] at hp
        by_cases hwant : is_wanted_entry e0 exts = true
        · rw [if_pos hwant] at hp
          rcases List.mem_cons.mp hp with hhead | htail
          · obtain ⟨h1, h2, h3⟩ := is_wanted_entry_spec e0 exts hwant
            exact ⟨e0, List.mem_cons_self _ _, hhead, h1, h2, h3⟩
          · obtain ⟨e, hmem, hrest⟩ := ih htail
            exact ⟨e, List.mem_cons_of_mem _ hmem, hrest⟩
        · rw [if_neg hwant] at hp
          obtain ⟨e, hmem, hrest⟩ := ih hp
          exact ⟨e, List.mem_cons_of_mem _ hmem, hrest⟩
  · intro options override_builder
    rfl

theorem C9_walk_filter_witness :
    (∃ e : DirEntry,
       Except.ok e ∈ [(Except.ok exEntryJs : Except Unit DirEntry)]
         ∧ exEntryJs.path = e.path
         ∧ (∃ ft, e.fileType = some ft ∧ ft.is_dir = false)
         ∧ (∃ name, e.path.fileName = some name
              ∧ minifiedMarkers.any (fun pat => seqContains pat name) = false)
         ∧ (∃ ext, e.path.extension = some ext ∧ ext ∈ ["js".toList]))
    ∧ (walkNewConfig ⟨false, ".oxlintignore".toList⟩ none).followLinks = true :=
  ⟨C9_walk_filter.1 ["js".toList] [(Except.ok exEntryJs : Except Unit DirEntry)]
      exEntryJs.path (by decide),
   C9_walk_filter.2 ⟨false, ".oxlintignore".toList⟩ none⟩

end Oxc
